import Mathlib

/-!
Shallow embedding of `backend/backend/metric.py` from the polydodo repository:
the `Metrics` class, which derives clinical sleep metrics from an ordered
sequence of sleep-stage labels and a bedtime offset.

Stage labels are strings, exactly as in the Python code (which compares
elements against `SleepStage.W.name` and `SleepStage.REM.name`).  Times are
integers (seconds); the efficiency ratio is a rational.
-/

namespace Polydodo

/-- Modelled from the spec: the stage-category list `SleepStage.tolist()` from
`classification/config/constants.py`, a module that is not under `src/`.  The
spec describes a small closed ordered set with a distinguished wake category
`W`, a distinguished REM category `REM`, and remaining non-REM categories
(light/deep stages). -/
def SleepStage.tolist : List String := ["W", "N1", "N2", "N3", "REM"]

/-- Modelled from the spec: `EPOCH_DURATION` from
`classification/config/constants.py` (not under `src/`): a positive number of
seconds per scored epoch, 30 s in the spec's scenarios (clinical convention). -/
def EPOCH_DURATION : ℤ := 30

/-- Value of `SleepStage.W.name` in the Python code. -/
def wakeName : String := "W"

/-- Value of `SleepStage.REM.name` in the Python code. -/
def remName : String := "REM"

/-- State of a constructed `Metrics` object: the immutable constructor inputs.
Every attribute computed by `__init__` and every `@property` is a pure
function of these two fields, embedded below. -/
structure Metrics where
  sleep_stages : List String
  bedtime : ℤ

namespace Metrics

/-- From `__init__`:
`len(np.unique(ss)) != 1 or np.unique(ss)[0] != SleepStage.W.name`.
For a non-empty sequence this is true iff some epoch differs from `W`; for the
empty sequence the first disjunct short-circuits to true. -/
def has_slept (m : Metrics) : Bool :=
  m.sleep_stages.isEmpty || m.sleep_stages.any (fun x => x != wakeName)

/-- From `__init__`: the elementwise boolean mask
`self.sleep_stages != SleepStage.W.name`. -/
def is_sleeping_stages (m : Metrics) : List Bool :=
  m.sleep_stages.map (fun x => x != wakeName)

/-- From `__init__`: `np.where(self.is_sleeping_stages)[0]`, the ascending
list of indices whose epoch is not wake. -/
def sleep_indexes (m : Metrics) : List ℕ :=
  (List.range m.sleep_stages.length).filter
    (fun i => m.sleep_stages.getD i "" != wakeName)

/-- From `__init__`: `self.sleep_stages[-1] != SleepStage.W.name`.  On the
empty sequence the Python indexing raises `IndexError` (see `Metrics.init`);
the default supplied to `getLastD` is never consulted on inputs accepted by
`init`. -/
def is_last_stage_sleep (m : Metrics) : Bool :=
  m.sleep_stages.getLastD wakeName != wakeName

/-- Outcome of running the constructor `Metrics(sleep_stages, bedtime)`.  The
only failing operation in `__init__` is the `self.sleep_stages[-1]` access,
which raises `IndexError` on the empty sequence; every other computation in
the constructor is total, and no label validation is performed. -/
def init (ss : List String) (bedtime : ℤ) : Except String Metrics :=
  if ss.isEmpty then Except.error "IndexError" else Except.ok ⟨ss, bedtime⟩

/-- First index at which a boolean mask holds: `np.where(mask)[0][0]` used in
`_get_latency_of_stage`, `none` when the mask holds nowhere. -/
def firstTrueIdx : List Bool → Option ℕ
  | [] => none
  | b :: rest => if b then some 0 else (firstTrueIdx rest).map (fun i => i + 1)

/-- From `_get_latency_of_stage`: first index where the mask holds, times
`EPOCH_DURATION`; `None` when the stage of interest never occurs. -/
def get_latency_of_stage (mask : List Bool) : Option ℤ :=
  (firstTrueIdx mask).map (fun (i : ℕ) => (i : ℤ) * EPOCH_DURATION)

/-- From `_initialize_sleep_latency`. -/
def sleep_latency (m : Metrics) : Option ℤ :=
  get_latency_of_stage m.is_sleeping_stages

/-- From `_initialize_rem_latency`: when the subject slept, the latency of the
REM mask minus the sleep latency (None when REM never occurs); None when the
subject never slept.  The `some btr, none` case stands for the `TypeError`
the Python subtraction would raise; it is unreachable on non-empty inputs. -/
def rem_latency (m : Metrics) : Option ℤ :=
  if m.has_slept then
    match get_latency_of_stage (m.sleep_stages.map (fun x => x == remName)),
        m.sleep_latency with
    | some btr, some sl => some (btr - sl)
    | some _, none => none
    | none, _ => none
  else none

/-- From `_initialize_sleep_offset`: one epoch past the last sleep index, in
absolute time; with a fallback on the whole length when `sleep_indexes` is
empty; `None` when the subject never slept. -/
def sleep_offset (m : Metrics) : Option ℤ :=
  if m.has_slept then
    let sleep_nb_epochs : ℤ :=
      match m.sleep_indexes.getLast? with
      | some last => (last : ℤ) + 1
      | none => (m.sleep_stages.length : ℤ)
    some (sleep_nb_epochs * EPOCH_DURATION + m.bedtime)
  else none

/-- From the `_sleep_onset` property: `None` when the subject never slept,
else `sleep_latency + bedtime`. -/
def sleep_onset (m : Metrics) : Option ℤ :=
  if m.has_slept then m.sleep_latency.map (fun v => v + m.bedtime) else none

/-- From the `_rem_onset` property: `None` when `rem_latency` is `None`, else
`rem_latency + bedtime`. -/
def rem_onset (m : Metrics) : Option ℤ :=
  m.rem_latency.map (fun v => v + m.bedtime)

/-- From the `_sleep_time` property: `0` when the subject never slept, else
`sleep_offset - sleep_onset` (both provably defined in that branch; the
fallthrough stands for the `TypeError` the Python subtraction would raise). -/
def sleep_time (m : Metrics) : Option ℤ :=
  if !m.has_slept then some 0
  else
    match m.sleep_offset, m.sleep_onset with
    | some a, some b => some (a - b)
    | _, _ => none

/-- From the `_efficient_sleep_time` property:
`len(self.sleep_indexes) * EPOCH_DURATION`. -/
def efficient_sleep_time (m : Metrics) : ℤ :=
  (m.sleep_indexes.length : ℤ) * EPOCH_DURATION

/-- From the `_wake_after_sleep_onset` property (the `WASO` report key): `0`
when the subject never slept, else `sleep_time - efficient_sleep_time`. -/
def wake_after_sleep_onset (m : Metrics) : Option ℤ :=
  if !m.has_slept then some 0
  else m.sleep_time.map (fun v => v - m.efficient_sleep_time)

/-- From the `_sleep_efficiency` property:
`len(self.sleep_indexes) / len(self.sleep_stages)`. -/
def sleep_efficiency (m : Metrics) : ℚ :=
  (m.sleep_indexes.length : ℚ) / (m.sleep_stages.length : ℚ)

/-- From the `_wake_after_sleep_offset` property: `0` when the subject never
slept; else `0` epochs when the last stage is sleep, otherwise
`len(ss) - sleep_indexes[-1] - 1` epochs, each worth `EPOCH_DURATION`.  The
`getLastD 0` default is never consulted: when the subject slept the index
list is non-empty (in Python an empty list would raise `IndexError`). -/
def wake_after_sleep_offset (m : Metrics) : ℤ :=
  if !m.has_slept then 0
  else
    let nb : ℤ :=
      if !m.is_last_stage_sleep then
        (m.sleep_stages.length : ℤ) - (m.sleep_indexes.getLastD 0 : ℤ) - 1
      else 0
    nb * EPOCH_DURATION

/-- From `get_time_passed` inside `_time_passed_in_stage`:
`EPOCH_DURATION * counter[stage] if stage in counter else 0`. -/
def get_time_passed (m : Metrics) (stage : String) : ℤ :=
  if m.sleep_stages.contains stage then
    EPOCH_DURATION * (m.sleep_stages.count stage)
  else 0

/-- The list of `<STAGE>Time` values of the report, one per known stage
category, in the order of `SleepStage.tolist()`. -/
def stage_times (m : Metrics) : List ℤ :=
  SleepStage.tolist.map m.get_time_passed

/-- The adjacent-epoch pairs `zip(self.sleep_stages[:-1], self.sleep_stages[1:])`
fed to the `Counter` in `_initialize_transition_based_metrics`. -/
def transition_pairs (m : Metrics) : List (String × String) :=
  m.sleep_stages.zip m.sleep_stages.tail

/-- The dict `occurences_by_transition`: each distinct adjacent pair whose two
components differ, together with its number of occurrences (the `Counter`
entry). -/
def occurences_by_transition (m : Metrics) : List ((String × String) × ℕ) :=
  ((m.transition_pairs.dedup).filter (fun p => p.1 != p.2)).map
    (fun p => (p, m.transition_pairs.count p))

/-- The variable `nb_stage_shifts` before the boundary adjustment: the sum of
`transition_occurences`. -/
def nb_stage_shifts_raw (m : Metrics) : ℕ :=
  (m.occurences_by_transition.map (fun t => t.2)).sum

/-- The variable `nb_awakenings` before the boundary adjustment: the sum of
`awakenings_occurences`, the counts of the differing pairs leaving a sleep
stage into wake. -/
def nb_awakenings_raw (m : Metrics) : ℕ :=
  ((m.occurences_by_transition.filter
      (fun t => t.1.1 != wakeName && t.1.2 == wakeName)).map (fun t => t.2)).sum

/-- The reported `stageShifts`: the raw count, plus one when
`is_last_stage_sleep and has_slept`. -/
def stage_shifts (m : Metrics) : ℕ :=
  m.nb_stage_shifts_raw + (if m.is_last_stage_sleep && m.has_slept then 1 else 0)

/-- The reported `awakenings`: the raw count, plus one when
`is_last_stage_sleep and has_slept`. -/
def awakenings (m : Metrics) : ℕ :=
  m.nb_awakenings_raw + (if m.is_last_stage_sleep && m.has_slept then 1 else 0)

end Metrics

/-- Spec-side reading of the stage-shift count: the number of indices `i` in
`0..n-2` with `s[i] ≠ s[i+1]`. -/
def specShiftCount (ss : List String) : ℕ :=
  (List.range (ss.length - 1)).countP
    (fun i => ss.getD i "" != ss.getD (i + 1) "")

/-- Spec-side reading of the awakening count: the number of indices `i` in
`0..n-2` with `s[i] ≠ wake` and `s[i+1] = wake`. -/
def specAwakeningCount (ss : List String) : ℕ :=
  (List.range (ss.length - 1)).countP
    (fun i => ss.getD i "" != wakeName && ss.getD (i + 1) "" == wakeName)

/-- The property of `i` being the first index of `ss` satisfying `p`. -/
@[reducible] def isFirstIdx (p : String → Bool) (ss : List String) (i : ℕ) : Prop :=
  i < ss.length ∧ p (ss.getD i "") = true ∧ ∀ j, j < i → p (ss.getD j "") = false

/-- The seven-epoch scenario sequence of the spec (§8). -/
def scenarioSeq : List String := ["W", "W", "N2", "N2", "REM", "N2", "W"]

/-!
Helper lemmas relating the `Counter`-based transition bookkeeping of
`_initialize_transition_based_metrics` to direct counts over adjacent pairs.
-/

/-- Counting a disjunction of pointwise-disjoint predicates splits into a sum. -/
lemma countP_or_of_disjoint (l : List (String × String))
    (p q : String × String → Bool)
    (h : ∀ x ∈ l, ¬(p x = true ∧ q x = true)) :
    l.countP (fun x => p x || q x) = l.countP p + l.countP q := by
  induction l with
  | nil => simp
  | cons a t ih =>
    have ha := h a (List.mem_cons_self a t)
    have ht : ∀ x ∈ t, ¬(p x = true ∧ q x = true) :=
      fun x hx => h x (List.mem_cons_of_mem _ hx)
    cases hp : p a with
    | true =>
      cases hq : q a with
      | true => exact absurd ⟨hp, hq⟩ ha
      | false => simp [List.countP_cons, hp, hq, ih ht]; omega
    | false =>
      cases hq : q a with
      | true => simp [List.countP_cons, hp, hq, ih ht]; omega
      | false => simp [List.countP_cons, hp, hq, ih ht]

/-- Summing the multiplicities of the members of a duplicate-free list `S`
inside `l` counts the elements of `l` that belong to `S`. -/
lemma sum_map_count_eq_countP_contains (S l : List (String × String))
    (hnd : S.Nodup) :
    (S.map (fun a => l.count a)).sum = l.countP (fun y => S.contains y) := by
  induction S with
  | nil => simp [List.countP_eq_length_filter]
  | cons a S ih =>
    have hna : a ∉ S := (List.nodup_cons.mp hnd).1
    have hdisj : ∀ x ∈ l, ¬((x == a) = true ∧ S.contains x = true) := by
      intro x _ hx
      obtain ⟨h1, h2⟩ := hx
      have hxa : x = a := eq_of_beq h1
      subst hxa
      exact hna (by simpa using h2)
    have hsplit := countP_or_of_disjoint l (fun y => y == a)
      (fun y => S.contains y) hdisj
    have hcongr : l.countP (fun y => (a :: S).contains y)
        = l.countP (fun y => (y == a) || S.contains y) := by
      apply List.countP_congr
      intro x _
      simp
    simp only [List.map_cons, List.sum_cons, hcongr, hsplit,
      ih ((List.nodup_cons.mp hnd).2), List.count_eq_countP]
    exact congrArg (List.countP (fun x => x == a) l + ·)
      (ih ((List.nodup_cons.mp hnd).2))

/-- The sum of the `Counter` multiplicities over the distinct pairs selected
by `q` equals the direct `countP q` over the pair list. -/
lemma sum_counter_eq_countP (l : List (String × String))
    (q : String × String → Bool) :
    ((l.dedup.filter q).map (fun a => l.count a)).sum = l.countP q := by
  rw [sum_map_count_eq_countP_contains _ l ((List.nodup_dedup l).filter q)]
  apply List.countP_congr
  intro x hx
  simp [List.mem_filter, List.mem_dedup, hx]

/-- The raw stage-shift count of the code equals a direct count of the
differing adjacent pairs. -/
lemma nb_stage_shifts_raw_eq (m : Metrics) :
    m.nb_stage_shifts_raw = m.transition_pairs.countP (fun p => p.1 != p.2) := by
  unfold Metrics.nb_stage_shifts_raw Metrics.occurences_by_transition
  rw [List.map_map]
  exact sum_counter_eq_countP m.transition_pairs (fun p => p.1 != p.2)

/-- On any pair, the awakening condition of the code (a differing pair
leaving a non-wake stage into wake) reduces to its first two conjuncts. -/
lemma awakening_pred_eq (p : String × String) :
    ((p.1 != wakeName && p.2 == wakeName) && p.1 != p.2)
      = (p.1 != wakeName && p.2 == wakeName) := by
  cases hb : p.2 == wakeName with
  | false => simp [hb]
  | true =>
    cases ha : p.1 == wakeName with
    | true =>
      have h1 : p.1 = wakeName := eq_of_beq ha
      have h2 : p.2 = wakeName := eq_of_beq hb
      simp [h1, h2, bne]
    | false =>
      have h2 : p.2 = wakeName := eq_of_beq hb
      have h1 : p.1 ≠ wakeName := by
        intro he
        rw [he] at ha
        simp at ha
      have hne : p.1 ≠ p.2 := h2 ▸ h1
      have hbf : (p.1 == p.2) = false := by
        cases hc : p.1 == p.2 with
        | false => rfl
        | true => exact absurd (eq_of_beq hc) hne
      simp [bne, ha, hb, hbf]

/-- The raw awakening count of the code equals a direct count of the
adjacent pairs leaving a non-wake stage into wake. -/
lemma nb_awakenings_raw_eq (m : Metrics) :
    m.nb_awakenings_raw
      = m.transition_pairs.countP
          (fun p => p.1 != wakeName && p.2 == wakeName) := by
  unfold Metrics.nb_awakenings_raw Metrics.occurences_by_transition
  rw [List.filter_map, List.map_map, List.filter_filter]
  have h1 := sum_counter_eq_countP m.transition_pairs
    (fun a => (a.1 != wakeName && a.2 == wakeName) && a.1 != a.2)
  have h2 : m.transition_pairs.countP
        (fun a => (a.1 != wakeName && a.2 == wakeName) && a.1 != a.2)
      = m.transition_pairs.countP
        (fun p => p.1 != wakeName && p.2 == wakeName) := by
    apply List.countP_congr
    intro x _
    rw [awakening_pred_eq x]
  exact h1.trans h2

/-- Counting adjacent pairs of a sequence equals counting over the index
range `0..n-2`. -/
lemma countP_zip_tail (q : String × String → Bool) :
    ∀ ss : List String,
      (ss.zip ss.tail).countP q
        = (List.range (ss.length - 1)).countP
            (fun i => q (ss.getD i "", ss.getD (i + 1) ""))
  | [] => by simp
  | [x] => by simp
  | x :: y :: r => by
    have ih := countP_zip_tail q (y :: r)
    have hlen : (x :: y :: r).length - 1 = ((y :: r).length - 1) + 1 := by
      simp
    rw [hlen, List.range_succ_eq_map]
    simp only [List.tail_cons, List.zip_cons_cons, List.countP_cons,
      List.countP_map, List.getD_cons_zero, List.getD_cons_succ]
    simp only [List.tail_cons] at ih
    rw [ih]
    congr 1

/-!
Helper lemmas on first indices, masks and the derived flags.
-/

/-- Two strings known to be different compare `!=` to `true`. -/
lemma bne_true_of_ne {a b : String} (h : a ≠ b) : (a != b) = true := by
  cases hc : a == b with
  | true => exact absurd (eq_of_beq hc) h
  | false => simp [bne, hc]

/-- A first index in the `isFirstIdx` sense determines `firstTrueIdx` of the
mapped mask. -/
lemma firstTrueIdx_map_of_isFirstIdx (p : String → Bool) :
    ∀ (ss : List String) (i : ℕ), isFirstIdx p ss i →
      Metrics.firstTrueIdx (ss.map p) = some i
  | [], i, h => absurd h.1 (by simp)
  | x :: t, 0, h => by
    have hx : p x = true := by simpa using h.2.1
    simp [Metrics.firstTrueIdx, hx]
  | x :: t, i + 1, h => by
    have hx : p x = false := by simpa using h.2.2 0 (Nat.succ_pos i)
    have ht : isFirstIdx p t i := by
      refine ⟨?_, ?_, ?_⟩
      · simpa using Nat.lt_of_succ_lt_succ (by simpa using h.1)
      · simpa using h.2.1
      · intro j hj
        simpa using h.2.2 (j + 1) (Nat.succ_lt_succ hj)
    simp [Metrics.firstTrueIdx, hx,
      firstTrueIdx_map_of_isFirstIdx p t i ht]

/-- When no element satisfies `p`, the mapped mask has no first index. -/
lemma firstTrueIdx_map_none (p : String → Bool) :
    ∀ ss : List String, (∀ x ∈ ss, p x = false) →
      Metrics.firstTrueIdx (ss.map p) = none
  | [], _ => rfl
  | x :: t, h => by
    have hx : p x = false := h x (List.mem_cons_self x t)
    simp [Metrics.firstTrueIdx, hx,
      firstTrueIdx_map_none p t fun y hy => h y (List.mem_cons_of_mem _ hy)]

/-- If every `q`-element is also a `p`-element, a first `q`-index guarantees
a first `p`-index no later than it. -/
lemma firstTrueIdx_le_of_imp (p q : String → Bool)
    (himp : ∀ x, q x = true → p x = true) :
    ∀ (ss : List String) (r : ℕ),
      Metrics.firstTrueIdx (ss.map q) = some r →
      ∃ s, s ≤ r ∧ Metrics.firstTrueIdx (ss.map p) = some s
  | [], r, h => by simp [Metrics.firstTrueIdx] at h
  | x :: t, r, h => by
    cases hq : q x with
    | true =>
      have hp := himp x hq
      refine ⟨0, ?_, by simp [Metrics.firstTrueIdx, hp]⟩
      omega
    | false =>
      simp only [List.map_cons, Metrics.firstTrueIdx, hq, if_false,
        Option.map_eq_some', Bool.false_eq_true] at h
      obtain ⟨r0, hr0, hrr⟩ := h
      cases hp : p x with
      | true => exact ⟨0, by omega, by simp [Metrics.firstTrueIdx, hp]⟩
      | false =>
        obtain ⟨s0, hs0, hfs⟩ := firstTrueIdx_le_of_imp p q himp t r0 hr0
        exact ⟨s0 + 1, by omega, by simp [Metrics.firstTrueIdx, hp, hfs]⟩

/-- For a non-empty all-wake sequence, `has_slept` is false. -/
lemma has_slept_false_of_all_wake (m : Metrics) (hne : m.sleep_stages ≠ [])
    (hall : ∀ x ∈ m.sleep_stages, x = wakeName) : m.has_slept = false := by
  unfold Metrics.has_slept
  have h1 : m.sleep_stages.isEmpty = false := by
    simpa [List.isEmpty_iff] using hne
  have h2 : m.sleep_stages.any (fun x => x != wakeName) = false := by
    rw [List.any_eq_false]
    intro x hx
    simp [hall x hx, bne]
  simp [h1, h2]

/-- A non-empty sequence with `has_slept` contains a non-wake epoch. -/
lemma exists_non_wake_of_has_slept (m : Metrics) (hne : m.sleep_stages ≠ [])
    (hs : m.has_slept = true) : ∃ x ∈ m.sleep_stages, x ≠ wakeName := by
  unfold Metrics.has_slept at hs
  have h1 : m.sleep_stages.isEmpty = false := by
    simpa [List.isEmpty_iff] using hne
  rw [h1, Bool.false_or, List.any_eq_true] at hs
  obtain ⟨x, hx, hxw⟩ := hs
  exact ⟨x, hx, by simpa using hxw⟩

/-- A non-wake member of the sequence forces `has_slept`. -/
lemma has_slept_of_mem_non_wake (m : Metrics) (x : String)
    (hx : x ∈ m.sleep_stages) (hxw : x ≠ wakeName) : m.has_slept = true := by
  unfold Metrics.has_slept
  have : m.sleep_stages.any (fun y => y != wakeName) = true := by
    rw [List.any_eq_true]
    exact ⟨x, hx, bne_true_of_ne hxw⟩
  simp [this]

/-- Membership in `sleep_indexes` characterised. -/
lemma mem_sleep_indexes_iff (m : Metrics) (i : ℕ) :
    i ∈ m.sleep_indexes
      ↔ i < m.sleep_stages.length ∧ m.sleep_stages.getD i "" ≠ wakeName := by
  unfold Metrics.sleep_indexes
  simp [List.mem_filter, List.mem_range]

/-- When a non-empty sequence has slept, `sleep_indexes` is non-empty. -/
lemma sleep_indexes_ne_nil (m : Metrics) (hne : m.sleep_stages ≠ [])
    (hs : m.has_slept = true) : m.sleep_indexes ≠ [] := by
  obtain ⟨x, hx, hxw⟩ := exists_non_wake_of_has_slept m hne hs
  obtain ⟨i, hi, hget⟩ := List.mem_iff_getElem.mp hx
  apply List.ne_nil_of_mem (a := i)
  rw [mem_sleep_indexes_iff]
  refine ⟨hi, ?_⟩
  rw [List.getD_eq_getElem?_getD, List.getElem?_eq_getElem hi]
  simp only [Option.getD_some]
  rw [hget]
  exact hxw

/-- For an all-wake sequence, `sleep_indexes` is empty. -/
lemma sleep_indexes_eq_nil (m : Metrics)
    (hall : ∀ x ∈ m.sleep_stages, x = wakeName) : m.sleep_indexes = [] := by
  unfold Metrics.sleep_indexes
  rw [List.filter_eq_nil_iff]
  intro i hi
  rw [List.mem_range] at hi
  have hmem : m.sleep_stages.getD i "" ∈ m.sleep_stages := by
    rw [List.getD_eq_getElem?_getD, List.getElem?_eq_getElem hi]
    simp only [Option.getD_some]
    exact List.getElem_mem hi
  have hx : m.sleep_stages.getD i "" = wakeName := hall _ hmem
  simp only [List.getD_eq_getElem?_getD] at hx
  simp [hx, bne]

/-- An in-range `getD` lands in the list. -/
lemma getD_mem (ss : List String) (i : ℕ) (h : i < ss.length) :
    ss.getD i "" ∈ ss := by
  rw [List.getD_eq_getElem?_getD, List.getElem?_eq_getElem h]
  simp only [Option.getD_some]
  exact List.getElem_mem h

/-- A non-empty sequence whose `has_slept` is false is all wake. -/
lemma all_wake_of_has_slept_false (m : Metrics)
    (hs : m.has_slept = false) : ∀ x ∈ m.sleep_stages, x = wakeName := by
  unfold Metrics.has_slept at hs
  intro x hx
  rcases Bool.or_eq_false_iff.mp hs with ⟨_, hany⟩
  have := List.any_eq_false.mp hany x hx
  simpa using this

example : Metrics.stage_shifts ⟨scenarioSeq, 0⟩ = 4 := by decide
example : Metrics.awakenings ⟨scenarioSeq, 0⟩ = 1 := by decide
example : Metrics.rem_latency ⟨scenarioSeq, 0⟩ = some 60 := by decide
example : Metrics.rem_onset ⟨scenarioSeq, 0⟩ = some 60 := by decide
example : Metrics.sleep_offset ⟨scenarioSeq, 0⟩ = some 180 := by decide
example : Metrics.wake_after_sleep_offset ⟨scenarioSeq, 0⟩ = 30 := by decide
example : Metrics.stage_shifts ⟨["N2"], 0⟩ = 1 := by decide
example : Metrics.awakenings ⟨["N2"], 0⟩ = 1 := by decide

/-!
Claim theorems.
-/

/-- C2, counterexample: the claim asserts that a sequence containing a label
outside the known stage-category set fails construction with `InvalidInput`;
in the code, construction on `["X"]` (an unknown label) fully succeeds and no
validation runs. -/
theorem C2_counterexample :
    ("X" ∈ SleepStage.tolist → False)
      ∧ Metrics.init ["X"] 0 = Except.ok ⟨["X"], 0⟩ := by
  constructor
  · decide
  · rfl

/-- C2 (amended): constructing the engine on an empty stage sequence fails at
construction time, with an index error raised by the last-element access (not
a dedicated `InvalidInput` error), before any metric is computed; for every
non-empty sequence — including sequences containing labels outside the known
stage-category set, which are never validated — construction fully
succeeds. -/
theorem C2_construction_outcome (ss : List String) (bt : ℤ) :
    (ss = [] → Metrics.init ss bt = Except.error "IndexError")
      ∧ (ss ≠ [] → Metrics.init ss bt = Except.ok ⟨ss, bt⟩) := by
  constructor
  · intro h
    subst h
    rfl
  · intro h
    have h2 : ss.isEmpty = false := by simpa [List.isEmpty_iff] using h
    simp [Metrics.init, h2]

/-- C2, witness of the amended claim at concrete inputs. -/
theorem C2_construction_outcome_witness :
    Metrics.init ([] : List String) 0 = Except.error "IndexError"
      ∧ Metrics.init ["W", "N2"] 0 = Except.ok ⟨["W", "N2"], 0⟩ :=
  ⟨(C2_construction_outcome [] 0).1 rfl,
    (C2_construction_outcome ["W", "N2"] 0).2 (by decide)⟩

/-- C4: a non-empty all-wake sequence reports `has_slept = false`, null
sleep/REM onsets, offset and latencies, zero sleep time, zero WASO, zero wake
after sleep offset, and zero sleep efficiency. -/
theorem C4_all_wake_report (ss : List String) (bt : ℤ) (hne : ss ≠ [])
    (hall : ∀ x ∈ ss, x = wakeName) :
    (Metrics.mk ss bt).has_slept = false
      ∧ (Metrics.mk ss bt).sleep_onset = none
      ∧ (Metrics.mk ss bt).rem_onset = none
      ∧ (Metrics.mk ss bt).sleep_offset = none
      ∧ (Metrics.mk ss bt).sleep_latency = none
      ∧ (Metrics.mk ss bt).rem_latency = none
      ∧ (Metrics.mk ss bt).sleep_time = some 0
      ∧ (Metrics.mk ss bt).wake_after_sleep_onset = some 0
      ∧ (Metrics.mk ss bt).wake_after_sleep_offset = 0
      ∧ (Metrics.mk ss bt).sleep_efficiency = 0 := by
  have hsf : (Metrics.mk ss bt).has_slept = false :=
    has_slept_false_of_all_wake _ hne hall
  have hlat : (Metrics.mk ss bt).sleep_latency = none := by
    unfold Metrics.sleep_latency Metrics.get_latency_of_stage
      Metrics.is_sleeping_stages
    rw [firstTrueIdx_map_none _ _ (fun x hx => by simp [hall x hx, bne])]
    rfl
  have hrem : (Metrics.mk ss bt).rem_latency = none := by
    unfold Metrics.rem_latency
    simp [hsf]
  have hidx : (Metrics.mk ss bt).sleep_indexes = [] :=
    sleep_indexes_eq_nil _ hall
  refine ⟨hsf, ?_, ?_, ?_, hlat, hrem, ?_, ?_, ?_, ?_⟩
  · unfold Metrics.sleep_onset
    simp [hsf]
  · unfold Metrics.rem_onset
    rw [hrem]
    rfl
  · unfold Metrics.sleep_offset
    simp [hsf]
  · unfold Metrics.sleep_time
    simp [hsf]
  · unfold Metrics.wake_after_sleep_onset
    simp [hsf]
  · unfold Metrics.wake_after_sleep_offset
    simp [hsf]
  · unfold Metrics.sleep_efficiency
    rw [hidx]
    simp

/-- C4, witness: the all-wake two-epoch sequence. -/
theorem C4_all_wake_report_witness :
    (["W", "W"] ≠ ([] : List String))
      ∧ (∀ x ∈ ["W", "W"], x = wakeName)
      ∧ ((Metrics.mk ["W", "W"] 0).has_slept = false
        ∧ (Metrics.mk ["W", "W"] 0).sleep_onset = none
        ∧ (Metrics.mk ["W", "W"] 0).rem_onset = none
        ∧ (Metrics.mk ["W", "W"] 0).sleep_offset = none
        ∧ (Metrics.mk ["W", "W"] 0).sleep_latency = none
        ∧ (Metrics.mk ["W", "W"] 0).rem_latency = none
        ∧ (Metrics.mk ["W", "W"] 0).sleep_time = some 0
        ∧ (Metrics.mk ["W", "W"] 0).wake_after_sleep_onset = some 0
        ∧ (Metrics.mk ["W", "W"] 0).wake_after_sleep_offset = 0
        ∧ (Metrics.mk ["W", "W"] 0).sleep_efficiency = 0) :=
  ⟨by decide, by decide,
    C4_all_wake_report ["W", "W"] 0 (by decide) (by decide)⟩

/-- C5: when a non-empty sequence has slept, the sleep-index list is
non-empty, `sleep_offset` equals `(lastSleepIdx + 1) * EPOCH_DURATION +
bedtime`, and the `k = 0` fallback branch returning
`n * EPOCH_DURATION + bedtime` is never taken. -/
theorem C5_sleep_offset_no_fallback (ss : List String) (bt : ℤ)
    (hne : ss ≠ []) (hs : (Metrics.mk ss bt).has_slept = true) :
    1 ≤ (Metrics.mk ss bt).sleep_indexes.length
      ∧ ∃ last, (Metrics.mk ss bt).sleep_indexes.getLast? = some last
        ∧ (Metrics.mk ss bt).sleep_offset
            = some (((last : ℤ) + 1) * EPOCH_DURATION + bt) := by
  have hnn : (Metrics.mk ss bt).sleep_indexes ≠ [] :=
    sleep_indexes_ne_nil _ hne hs
  refine ⟨List.length_pos.mpr hnn, ?_⟩
  cases hlast : (Metrics.mk ss bt).sleep_indexes.getLast? with
  | none => exact absurd (List.getLast?_eq_none_iff.mp hlast) hnn
  | some last =>
    refine ⟨last, rfl, ?_⟩
    unfold Metrics.sleep_offset
    simp [hs, hlast]

/-- C5, witness: the spec's seven-epoch scenario. -/
theorem C5_sleep_offset_no_fallback_witness :
    (scenarioSeq ≠ [])
      ∧ (Metrics.mk scenarioSeq 0).has_slept = true
      ∧ (1 ≤ (Metrics.mk scenarioSeq 0).sleep_indexes.length
        ∧ ∃ last, (Metrics.mk scenarioSeq 0).sleep_indexes.getLast? = some last
          ∧ (Metrics.mk scenarioSeq 0).sleep_offset
              = some (((last : ℤ) + 1) * EPOCH_DURATION + 0)) :=
  ⟨by decide, by decide,
    C5_sleep_offset_no_fallback scenarioSeq 0 (by decide) (by decide)⟩

/-- C6: `wake_after_sleep_offset` is `0` when the last epoch is sleep, equals
`(n - lastSleepIdx - 1) * EPOCH_DURATION` when the subject slept but the last
epoch is wake, and is `0` when the subject never slept. -/
theorem C6_wake_after_sleep_offset_cases (ss : List String) (bt : ℤ)
    (hne : ss ≠ []) :
    ((Metrics.mk ss bt).is_last_stage_sleep = true →
        (Metrics.mk ss bt).wake_after_sleep_offset = 0)
      ∧ ((Metrics.mk ss bt).has_slept = true →
          (Metrics.mk ss bt).is_last_stage_sleep = false →
          ∃ last, (Metrics.mk ss bt).sleep_indexes.getLast? = some last
            ∧ (Metrics.mk ss bt).wake_after_sleep_offset
                = ((ss.length : ℤ) - (last : ℤ) - 1) * EPOCH_DURATION)
      ∧ ((Metrics.mk ss bt).has_slept = false →
          (Metrics.mk ss bt).wake_after_sleep_offset = 0) := by
  refine ⟨?_, ?_, ?_⟩
  · intro hlastsleep
    have hy : ∃ y, ss.getLast? = some y := by
      cases hy : ss.getLast? with
      | none => exact absurd (List.getLast?_eq_none_iff.mp hy) hne
      | some y => exact ⟨y, rfl⟩
    obtain ⟨y, hy⟩ := hy
    have hyne : y ≠ wakeName := by
      unfold Metrics.is_last_stage_sleep at hlastsleep
      rw [List.getLastD_eq_getLast?, hy] at hlastsleep
      simpa using hlastsleep
    have hymem : y ∈ ss := List.mem_of_getLast?_eq_some hy
    have hs : (Metrics.mk ss bt).has_slept = true :=
      has_slept_of_mem_non_wake _ y hymem hyne
    unfold Metrics.wake_after_sleep_offset
    simp [hs, hlastsleep]
  · intro hs hlastwake
    have hnn : (Metrics.mk ss bt).sleep_indexes ≠ [] :=
      sleep_indexes_ne_nil _ hne hs
    cases hlast : (Metrics.mk ss bt).sleep_indexes.getLast? with
    | none => exact absurd (List.getLast?_eq_none_iff.mp hlast) hnn
    | some last =>
      refine ⟨last, rfl, ?_⟩
      unfold Metrics.wake_after_sleep_offset
      rw [hs, hlastwake]
      simp only [Bool.not_true, Bool.not_false, if_true, if_false]
      rw [List.getLastD_eq_getLast?, hlast]
      rfl
  · intro hs
    unfold Metrics.wake_after_sleep_offset
    simp [hs]

/-- C6, witness: the spec's seven-epoch scenario, whose last epoch is wake. -/
theorem C6_wake_after_sleep_offset_cases_witness :
    (scenarioSeq ≠ [])
      ∧ (((Metrics.mk scenarioSeq 0).is_last_stage_sleep = true →
          (Metrics.mk scenarioSeq 0).wake_after_sleep_offset = 0)
        ∧ ((Metrics.mk scenarioSeq 0).has_slept = true →
            (Metrics.mk scenarioSeq 0).is_last_stage_sleep = false →
            ∃ last,
              (Metrics.mk scenarioSeq 0).sleep_indexes.getLast? = some last
              ∧ (Metrics.mk scenarioSeq 0).wake_after_sleep_offset
                  = ((scenarioSeq.length : ℤ) - (last : ℤ) - 1)
                      * EPOCH_DURATION)
        ∧ ((Metrics.mk scenarioSeq 0).has_slept = false →
            (Metrics.mk scenarioSeq 0).wake_after_sleep_offset = 0)) :=
  ⟨by decide, C6_wake_after_sleep_offset_cases scenarioSeq 0 (by decide)⟩

/-- Two distinct strings compare `==` to `false`. -/
lemma beq_eq_false_of_ne {a b : String} (h : a ≠ b) : (a == b) = false := by
  cases hc : a == b with
  | true => exact absurd (eq_of_beq hc) h
  | false => rfl

/-- C1: on a non-empty sequence, whenever a first REM epoch (index `r`) and a
first sleep epoch (index `s`) exist, the reported `rem_latency` equals
`r * EPOCH_DURATION - s * EPOCH_DURATION` (first-REM elapsed minus sleep
latency) and `rem_onset` equals that value plus bedtime — not the absolute
time of the first REM epoch; both are null when the subject never slept or no
REM epoch exists. -/
theorem C1_rem_latency_and_onset (ss : List String) (bt : ℤ) (hne : ss ≠ []) :
    (∀ r s, isFirstIdx (fun x => x == remName) ss r →
        isFirstIdx (fun x => x != wakeName) ss s →
        (Metrics.mk ss bt).rem_latency
            = some ((r : ℤ) * EPOCH_DURATION - (s : ℤ) * EPOCH_DURATION)
          ∧ (Metrics.mk ss bt).rem_onset
            = some ((r : ℤ) * EPOCH_DURATION - (s : ℤ) * EPOCH_DURATION + bt))
      ∧ (((Metrics.mk ss bt).has_slept = false ∨ ∀ x ∈ ss, x ≠ remName) →
          (Metrics.mk ss bt).rem_latency = none
            ∧ (Metrics.mk ss bt).rem_onset = none) := by
  constructor
  · intro r s hr hs
    have hrmem : ss.getD r "" ∈ ss := getD_mem ss r hr.1
    have hrrem : ss.getD r "" = remName := eq_of_beq hr.2.1
    have hslept : (Metrics.mk ss bt).has_slept = true := by
      apply has_slept_of_mem_non_wake _ (ss.getD r "") hrmem
      rw [hrrem]
      decide
    have hfr := firstTrueIdx_map_of_isFirstIdx (fun x => x == remName) ss r hr
    have hfs := firstTrueIdx_map_of_isFirstIdx (fun x => x != wakeName) ss s hs
    have hlat : (Metrics.mk ss bt).sleep_latency
        = some ((s : ℤ) * EPOCH_DURATION) := by
      unfold Metrics.sleep_latency Metrics.get_latency_of_stage
        Metrics.is_sleeping_stages
      rw [hfs]
      rfl
    have hremlat : (Metrics.mk ss bt).rem_latency
        = some ((r : ℤ) * EPOCH_DURATION - (s : ℤ) * EPOCH_DURATION) := by
      unfold Metrics.rem_latency Metrics.get_latency_of_stage
      rw [hfr]
      simp [hslept, hlat]
    refine ⟨hremlat, ?_⟩
    unfold Metrics.rem_onset
    rw [hremlat]
    rfl
  · intro hcase
    have hremnone : (Metrics.mk ss bt).rem_latency = none := by
      rcases hcase with hsf | hnorem
      · unfold Metrics.rem_latency
        simp [hsf]
      · have hmask : Metrics.firstTrueIdx (ss.map (fun x => x == remName))
            = none :=
          firstTrueIdx_map_none _ ss
            (fun x hx => beq_eq_false_of_ne (hnorem x hx))
        unfold Metrics.rem_latency Metrics.get_latency_of_stage
        rw [hmask]
        cases hsl : (Metrics.mk ss bt).has_slept with
        | false => simp [hsl]
        | true => simp [hsl]
    refine ⟨hremnone, ?_⟩
    unfold Metrics.rem_onset
    rw [hremnone]
    rfl

/-- C1, witness: the spec's seven-epoch scenario, with first REM epoch at
index 4 and first sleep epoch at index 2. -/
theorem C1_rem_latency_and_onset_witness :
    (scenarioSeq ≠ [])
      ∧ isFirstIdx (fun x => x == remName) scenarioSeq 4
      ∧ isFirstIdx (fun x => x != wakeName) scenarioSeq 2
      ∧ ((Metrics.mk scenarioSeq 0).rem_latency
            = some (((4 : ℕ) : ℤ) * EPOCH_DURATION
                - ((2 : ℕ) : ℤ) * EPOCH_DURATION)
        ∧ (Metrics.mk scenarioSeq 0).rem_onset
            = some (((4 : ℕ) : ℤ) * EPOCH_DURATION
                - ((2 : ℕ) : ℤ) * EPOCH_DURATION + 0)) :=
  ⟨by decide, by decide, by decide,
    (C1_rem_latency_and_onset scenarioSeq 0 (by decide)).1 4 2
      (by decide) (by decide)⟩

/-- C3: `stage_shifts` counts the adjacent positions whose labels differ,
`awakenings` counts the adjacent positions leaving a non-wake stage into
wake, and both receive exactly one extra unit when the subject slept and the
last epoch is a sleep stage. -/
theorem C3_transition_counts (ss : List String) (bt : ℤ) (hne : ss ≠ []) :
    (Metrics.mk ss bt).stage_shifts
        = specShiftCount ss
          + (if (Metrics.mk ss bt).has_slept = true
                ∧ (Metrics.mk ss bt).is_last_stage_sleep = true
              then 1 else 0)
      ∧ (Metrics.mk ss bt).awakenings
        = specAwakeningCount ss
          + (if (Metrics.mk ss bt).has_slept = true
                ∧ (Metrics.mk ss bt).is_last_stage_sleep = true
              then 1 else 0) := by
  have hshift : (Metrics.mk ss bt).nb_stage_shifts_raw = specShiftCount ss := by
    rw [nb_stage_shifts_raw_eq]
    exact countP_zip_tail (fun p : String × String => p.1 != p.2) ss
  have hawake : (Metrics.mk ss bt).nb_awakenings_raw
      = specAwakeningCount ss := by
    rw [nb_awakenings_raw_eq]
    exact countP_zip_tail
      (fun p : String × String => p.1 != wakeName && p.2 == wakeName) ss
  have hite :
      (if (Metrics.mk ss bt).is_last_stage_sleep
            && (Metrics.mk ss bt).has_slept
          then 1 else 0)
        = (if (Metrics.mk ss bt).has_slept = true
              ∧ (Metrics.mk ss bt).is_last_stage_sleep = true
            then 1 else 0) := by
    cases hl : (Metrics.mk ss bt).is_last_stage_sleep <;>
      cases hh : (Metrics.mk ss bt).has_slept <;> simp [hl, hh]
  constructor
  · unfold Metrics.stage_shifts
    rw [hshift, hite]
  · unfold Metrics.awakenings
    rw [hawake, hite]

/-- C3, witness: the spec's seven-epoch scenario. -/
theorem C3_transition_counts_witness :
    (scenarioSeq ≠ [])
      ∧ ((Metrics.mk scenarioSeq 0).stage_shifts
          = specShiftCount scenarioSeq
            + (if (Metrics.mk scenarioSeq 0).has_slept = true
                  ∧ (Metrics.mk scenarioSeq 0).is_last_stage_sleep = true
                then 1 else 0)
        ∧ (Metrics.mk scenarioSeq 0).awakenings
          = specAwakeningCount scenarioSeq
            + (if (Metrics.mk scenarioSeq 0).has_slept = true
                  ∧ (Metrics.mk scenarioSeq 0).is_last_stage_sleep = true
                then 1 else 0)) :=
  ⟨by decide, C3_transition_counts scenarioSeq 0 (by decide)⟩

/-- Counting occurrences of each of the five known stage names accounts for
every epoch of a sequence drawn from the known set. -/
lemma count_known_stages (ss : List String)
    (hall : ∀ x ∈ ss, x ∈ SleepStage.tolist) :
    ss.count "W" + ss.count "N1" + ss.count "N2" + ss.count "N3"
        + ss.count "REM" = ss.length := by
  induction ss with
  | nil => simp
  | cons x t ih =>
    have hx := hall x (List.mem_cons_self x t)
    have ht := ih fun y hy => hall y (List.mem_cons_of_mem _ hy)
    simp only [SleepStage.tolist, List.mem_cons, List.not_mem_nil,
      or_false] at hx
    rcases hx with h | h | h | h | h <;>
      subst h <;> simp [List.count_cons] <;> omega

/-- The time-in-stage entry reduces to `EPOCH_DURATION` times the count (the
`stage in counter` guard only skips a zero count). -/
lemma get_time_passed_eq (m : Metrics) (s : String) :
    m.get_time_passed s = EPOCH_DURATION * (m.sleep_stages.count s : ℤ) := by
  unfold Metrics.get_time_passed
  cases hc : m.sleep_stages.contains s with
  | true => simp [hc]
  | false =>
    have hnm : s ∉ m.sleep_stages := by simpa using hc
    rw [List.count_eq_zero_of_not_mem hnm]
    simp [hc]

/-- C7: for a non-empty sequence drawn from the known stage-category set, the
`<STAGE>Time` values sum to `n * EPOCH_DURATION`: every epoch is attributed
to exactly one stage. -/
theorem C7_stage_times_total (ss : List String) (bt : ℤ) (hne : ss ≠ [])
    (hall : ∀ x ∈ ss, x ∈ SleepStage.tolist) :
    ((Metrics.mk ss bt).stage_times).sum
      = (ss.length : ℤ) * EPOCH_DURATION := by
  have hcount := count_known_stages ss hall
  have hc : ((ss.count "W" + ss.count "N1" + ss.count "N2" + ss.count "N3"
      + ss.count "REM" : ℕ) : ℤ) = (ss.length : ℤ) := by
    exact_mod_cast congrArg (Nat.cast : ℕ → ℤ) hcount
  push_cast at hc
  simp only [Metrics.stage_times, SleepStage.tolist, List.map_cons,
    List.map_nil, List.sum_cons, List.sum_nil, get_time_passed_eq]
  simp only [EPOCH_DURATION] at *
  omega

/-- C7, witness: the spec's seven-epoch scenario. -/
theorem C7_stage_times_total_witness :
    (scenarioSeq ≠ [])
      ∧ (∀ x ∈ scenarioSeq, x ∈ SleepStage.tolist)
      ∧ ((Metrics.mk scenarioSeq 0).stage_times).sum
          = (scenarioSeq.length : ℤ) * EPOCH_DURATION :=
  ⟨by decide, by decide,
    C7_stage_times_total scenarioSeq 0 (by decide) (by decide)⟩

/-- C8: every counted awakening is also a counted stage shift, and the
boundary adjustment adds one to both, so `awakenings ≤ stage_shifts`. -/
theorem C8_awakenings_le_stage_shifts (ss : List String) (bt : ℤ)
    (hne : ss ≠ []) :
    (Metrics.mk ss bt).awakenings ≤ (Metrics.mk ss bt).stage_shifts := by
  unfold Metrics.awakenings Metrics.stage_shifts
  have hraw : (Metrics.mk ss bt).nb_awakenings_raw
      ≤ (Metrics.mk ss bt).nb_stage_shifts_raw := by
    rw [nb_awakenings_raw_eq, nb_stage_shifts_raw_eq]
    apply List.countP_mono_left
    intro p _ hp
    have h1 : (p.1 != wakeName) = true := (Bool.and_eq_true _ _).mp hp |>.1
    have h2 : (p.2 == wakeName) = true := (Bool.and_eq_true _ _).mp hp |>.2
    have hp1 : p.1 ≠ wakeName := by simpa using h1
    have hp2 : p.2 = wakeName := eq_of_beq h2
    exact bne_true_of_ne (hp2 ▸ hp1)
  omega

/-- C8, witness: the spec's seven-epoch scenario. -/
theorem C8_awakenings_le_stage_shifts_witness :
    (scenarioSeq ≠ [])
      ∧ (Metrics.mk scenarioSeq 0).awakenings
          ≤ (Metrics.mk scenarioSeq 0).stage_shifts :=
  ⟨by decide, C8_awakenings_le_stage_shifts scenarioSeq 0 (by decide)⟩

/-- C9: a non-null reported `rem_latency` is non-negative (the first REM
epoch cannot precede the first sleep epoch, REM being a non-wake stage) and
is an integer multiple of `EPOCH_DURATION`. -/
theorem C9_rem_latency_nonneg_multiple (ss : List String) (bt : ℤ) (v : ℤ)
    (hne : ss ≠ [])
    (hv : (Metrics.mk ss bt).rem_latency = some v) :
    0 ≤ v ∧ EPOCH_DURATION ∣ v := by
  unfold Metrics.rem_latency at hv
  cases hs : (Metrics.mk ss bt).has_slept with
  | false => simp [hs] at hv
  | true =>
    simp only [hs, if_true] at hv
    cases hbtr : Metrics.get_latency_of_stage
        ((Metrics.mk ss bt).sleep_stages.map (fun x => x == remName)) with
    | none => rw [hbtr] at hv; simp at hv
    | some btr =>
      cases hsl : (Metrics.mk ss bt).sleep_latency with
      | none => rw [hbtr, hsl] at hv; simp at hv
      | some sl =>
        rw [hbtr, hsl] at hv
        simp only [Option.some.injEq] at hv
        unfold Metrics.get_latency_of_stage at hbtr
        rcases Option.map_eq_some'.mp hbtr with ⟨r, hr, hbtrv⟩
        unfold Metrics.sleep_latency Metrics.get_latency_of_stage
          Metrics.is_sleeping_stages at hsl
        rcases Option.map_eq_some'.mp hsl with ⟨s1, hs1, hslv⟩
        have himp : ∀ x : String, (x == remName) = true →
            (x != wakeName) = true := by
          intro x hx
          have : x = remName := eq_of_beq hx
          subst this
          decide
        obtain ⟨s0, hs0r, hs0⟩ :=
          firstTrueIdx_le_of_imp (fun x => x != wakeName)
            (fun x => x == remName) himp _ r hr
        have hseq : s0 = s1 := by
          rw [hs0] at hs1
          exact Option.some.injEq _ _ ▸ (by simpa using hs1)
        subst hseq
        have hvv : v = (r : ℤ) * EPOCH_DURATION
            - (s0 : ℤ) * EPOCH_DURATION := by
          rw [← hv, ← hbtrv, ← hslv]
        constructor
        · have hcast : (s0 : ℤ) ≤ (r : ℤ) := by exact_mod_cast hs0r
          have hdpos : (0 : ℤ) ≤ EPOCH_DURATION := by decide
          rw [hvv]
          have : (r : ℤ) * EPOCH_DURATION - (s0 : ℤ) * EPOCH_DURATION
              = ((r : ℤ) - (s0 : ℤ)) * EPOCH_DURATION := by ring
          rw [this]
          exact mul_nonneg (by omega) hdpos
        · refine ⟨(r : ℤ) - (s0 : ℤ), ?_⟩
          rw [hvv]
          ring

/-- C9, witness: the spec's seven-epoch scenario, `rem_latency = 60`. -/
theorem C9_rem_latency_nonneg_multiple_witness :
    (scenarioSeq ≠ [])
      ∧ (Metrics.mk scenarioSeq 0).rem_latency = some 60
      ∧ (0 ≤ (60 : ℤ) ∧ EPOCH_DURATION ∣ (60 : ℤ)) :=
  ⟨by decide, by decide,
    C9_rem_latency_nonneg_multiple scenarioSeq 0 60 (by decide) (by decide)⟩

/-- A sequence containing a non-wake epoch but ending in wake contains at
least one adjacent pair leaving a non-wake stage into wake. -/
lemma raw_awakening_pos :
    ∀ ss : List String, ss.any (fun x => x != wakeName) = true →
      ss.getLast? = some wakeName →
      1 ≤ (ss.zip ss.tail).countP
          (fun p => p.1 != wakeName && p.2 == wakeName)
  | [], hany, _ => by simp at hany
  | [x], hany, hlast => by
    have hx : x = wakeName := by simpa using hlast
    rw [hx] at hany
    simp [bne] at hany
  | x :: y :: r, hany, hlast => by
    have hlast2 : (y :: r).getLast? = some wakeName := by
      simpa [List.getLast?_cons_cons] using hlast
    cases hany2 : (y :: r).any (fun z => z != wakeName) with
    | true =>
      have ih := raw_awakening_pos (y :: r) hany2 hlast2
      simp only [List.tail_cons, List.zip_cons_cons, List.countP_cons]
      simp only [List.tail_cons] at ih
      exact le_trans ih (Nat.le_add_right _ _)
    | false =>
      have hally : ∀ z ∈ y :: r, z = wakeName := by
        intro z hz
        have := List.any_eq_false.mp hany2 z hz
        simpa using this
      have hy : y = wakeName := hally y (List.mem_cons_self y r)
      have hx : x ≠ wakeName := by
        rw [List.any_eq_true] at hany
        obtain ⟨z, hz, hzw⟩ := hany
        have hzne : z ≠ wakeName := by simpa using hzw
        rcases List.mem_cons.mp hz with h | h
        · exact h ▸ hzne
        · exact absurd (hally z h) hzne
      have hpred : ((x != wakeName) && (y == wakeName)) = true := by
        rw [hy]
        simp [bne_true_of_ne hx]
      simp only [List.tail_cons, List.zip_cons_cons, List.countP_cons, hpred,
        if_true]
      omega

/-- C10: a non-empty sequence reports at least one awakening exactly when the
subject slept — the boundary rule supplies one when the recording ends
mid-sleep, and otherwise the epoch after the last sleep index is wake — and
an all-wake sequence reports zero awakenings. -/
theorem C10_awakenings_iff_has_slept (ss : List String) (bt : ℤ)
    (hne : ss ≠ []) :
    (1 ≤ (Metrics.mk ss bt).awakenings
        ↔ (Metrics.mk ss bt).has_slept = true)
      ∧ ((∀ x ∈ ss, x = wakeName) → (Metrics.mk ss bt).awakenings = 0) := by
  have hrawcount : (Metrics.mk ss bt).nb_awakenings_raw
      = (ss.zip ss.tail).countP
          (fun p => p.1 != wakeName && p.2 == wakeName) :=
    nb_awakenings_raw_eq (Metrics.mk ss bt)
  have hzero : (Metrics.mk ss bt).has_slept = false →
      (Metrics.mk ss bt).awakenings = 0 := by
    intro hsf
    have hall := all_wake_of_has_slept_false _ hsf
    have hraw : (Metrics.mk ss bt).nb_awakenings_raw = 0 := by
      rw [hrawcount, List.countP_eq_zero]
      intro p hp
      obtain ⟨a, b⟩ := p
      have ha : a ∈ ss := (List.of_mem_zip hp).1
      simp [hall a ha, bne]
    unfold Metrics.awakenings
    rw [hraw, hsf]
    simp
  have hpos : (Metrics.mk ss bt).has_slept = true →
      1 ≤ (Metrics.mk ss bt).awakenings := by
    intro hs
    cases hl : (Metrics.mk ss bt).is_last_stage_sleep with
    | true =>
      unfold Metrics.awakenings
      rw [hl, hs]
      simp
    | false =>
      have hy : ss.getLast? = some wakeName := by
        cases hy : ss.getLast? with
        | none => exact absurd (List.getLast?_eq_none_iff.mp hy) hne
        | some y =>
          have hyw : (y != wakeName) = false := by
            unfold Metrics.is_last_stage_sleep at hl
            rw [List.getLastD_eq_getLast?, hy] at hl
            simpa using hl
          have : y = wakeName := by simpa using hyw
          rw [this]
      have hany : ss.any (fun x => x != wakeName) = true := by
        obtain ⟨x, hx, hxw⟩ := exists_non_wake_of_has_slept _ hne hs
        rw [List.any_eq_true]
        exact ⟨x, hx, bne_true_of_ne hxw⟩
      have h1 := raw_awakening_pos ss hany hy
      unfold Metrics.awakenings
      rw [hrawcount]
      omega
  refine ⟨⟨?_, hpos⟩, ?_⟩
  · intro h1le
    by_contra hns
    have hsf : (Metrics.mk ss bt).has_slept = false :=
      Bool.not_eq_true _ ▸ hns
    have := hzero hsf
    omega
  · intro hall
    exact hzero (has_slept_false_of_all_wake _ hne hall)

/-- C10, witness: the spec's seven-epoch scenario, which has one awakening. -/
theorem C10_awakenings_iff_has_slept_witness :
    (scenarioSeq ≠ [])
      ∧ ((1 ≤ (Metrics.mk scenarioSeq 0).awakenings
          ↔ (Metrics.mk scenarioSeq 0).has_slept = true)
        ∧ ((∀ x ∈ scenarioSeq, x = wakeName) →
            (Metrics.mk scenarioSeq 0).awakenings = 0)) :=
  ⟨by decide, C10_awakenings_iff_has_slept scenarioSeq 0 (by decide)⟩

end Polydodo
